import Mathlib

/-!
Verification of the tremor-detection pipeline: a shallow embedding of the
register decoding, retry logic, unit conversion, spectral scalar
computations and the two classification policies found in
mpu6050_tremor_detection.py (resting-tremor variant) and spiral.py
(action-tremor variant), together with proofs of the specified properties.
-/

namespace Tremor

/-! ## Raw register decoding -/

/-- Signed 16-bit decoding arithmetic, written identically in
mpu6050_tremor_detection.py (read_word_2c, lines 70-77) and spiral.py
(read_word_2c_safe, lines 107-123): val = (high << 8) + low, and if
val >= 0x8000 the function returns -((65535 - val) + 1), else val.
Python integers are unbounded, so the value is modelled in ℤ. -/
def word2c (high low : ℕ) : ℤ :=
  let val : ℤ := (high : ℤ) * 256 + (low : ℤ)
  if 0x8000 ≤ val then -((65535 - val) + 1) else val

/-- Mathematical two's-complement interpretation of a 16-bit word, as the
spec describes the decoding: the word itself below 0x8000, and word - 2^16
at or above. -/
def twosComplement16 (w : ℕ) : ℤ :=
  if w < 32768 then (w : ℤ) else (w : ℤ) - 65536

/-- Reader of the resting-tremor variant (mpu6050_tremor_detection.py
read_word_2c): a single high/low register-pair read, modelled as consulting
attempt 0 of a stream of read outcomes; none models an OSError raised by the
bus.  A failed read propagates immediately: no further attempt is consulted. -/
def read_word_2c (reads : ℕ → Option (ℕ × ℕ)) : Option ℤ :=
  (reads 0).map (fun hl => word2c hl.1 hl.2)

/-- Retry loop of spiral.py read_word_2c_safe: attempts are consulted in
order; the first successful register-pair read is decoded and returned, and
none is produced only when the whole fuel budget is exhausted (the final
re-raise of the OSError).  The 0.01 s backoff between attempts is a timing
side effect with no influence on the produced value. -/
def retryLoop (reads : ℕ → Option (ℕ × ℕ)) : ℕ → ℕ → Option ℤ
  | _, 0 => none
  | attempt, fuel + 1 =>
    match reads attempt with
    | some hl => some (word2c hl.1 hl.2)
    | none => retryLoop reads (attempt + 1) fuel

/-- Reader of the action-tremor variant (spiral.py read_word_2c_safe with
its default max_retries = 3). -/
def read_word_2c_safe (reads : ℕ → Option (ℕ × ℕ)) (max_retries : ℕ) : Option ℤ :=
  retryLoop reads 0 max_retries

/-! ## Unit conversion (identical lines in both variants) -/

/-- Accelerometer conversion, ax = (accel_x / 16384.0) * 9.81, with the
float literals read as the rationals they denote. -/
def accelConvert (r : ℤ) : ℚ := ((r : ℚ) / 16384) * (981 / 100)

/-- Gyroscope conversion, gx = gyro_x / 131.0. -/
def gyroConvert (r : ℤ) : ℚ := (r : ℚ) / 131

/-! ## Classification statuses -/

/-- Outcomes of the resting-tremor assessment
(mpu6050_tremor_detection.py lines 183-201). -/
inductive RestingStatus
  | detected
  | possible
  | noTremor
deriving DecidableEq

/-- Tremor sub-type printed when the resting assessment detects a tremor. -/
inductive TremorType
  | linear
  | rotational
deriving DecidableEq

/-- Outcomes of the action-tremor assessment (spiral.py lines 279-318). -/
inductive ActionStatus
  | significant
  | mild
  | noSignificant
deriving DecidableEq

/-! ## The two classification policies.

The scalar inputs are real-valued in the program; the definitions are
generic over a linear ordered field so that the same text serves the exact
rational instance used for witnesses and the real instance used by the
spectral pipeline. -/

variable {α : Type*} [LinearOrderedField α]

/-- Resting-tremor policy (mpu6050_tremor_detection.py lines 188-201):
TREMOR DETECTED when (tremor_ratio_accel > 0.3 or tremor_ratio_gyro > 0.3)
and (4 <= peak_freq_accel <= 6 or 4 <= peak_freq_gyro <= 6); otherwise
POSSIBLE TREMOR when combined_ratio = (ratio_accel + ratio_gyro) / 2
exceeds 0.15; otherwise NO TREMOR. -/
def restingStatus (ra rg pfa pfg : α) : RestingStatus :=
  if (ra > 3 / 10 ∨ rg > 3 / 10) ∧ ((4 ≤ pfa ∧ pfa ≤ 6) ∨ (4 ≤ pfg ∧ pfg ≤ 6)) then
    RestingStatus.detected
  else if (ra + rg) / 2 > 15 / 100 then
    RestingStatus.possible
  else
    RestingStatus.noTremor

/-- Sub-type decided inside the detected branch
(mpu6050_tremor_detection.py lines 192-195): ROTATIONAL when
tremor_ratio_gyro > tremor_ratio_accel, LINEAR otherwise. -/
def restingSubtype (ra rg : α) : TremorType :=
  if rg > ra then TremorType.rotational else TremorType.linear

/-- spiral.py line 39: significant tremor-ratio threshold 0.35. -/
def RATIO_SIGNIFICANT : α := 35 / 100

/-- spiral.py line 40: mild tremor-ratio threshold 0.20. -/
def RATIO_MILD : α := 20 / 100

/-- spiral.py line 43: significant accelerometer RMS threshold 0.50. -/
def RMS_ACCEL_SIGNIFICANT : α := 50 / 100

/-- spiral.py line 44: mild accelerometer RMS threshold 0.35. -/
def RMS_ACCEL_MILD : α := 35 / 100

/-- spiral.py line 47: significant gyroscope RMS threshold 18. -/
def RMS_GYRO_SIGNIFICANT : α := 18

/-- spiral.py line 48: mild gyroscope RMS threshold 10. -/
def RMS_GYRO_MILD : α := 10

/-- Action-tremor policy (spiral.py lines 279-318): with
correct_frequency = (4 <= peak_freq_accel <= 6 or 4 <= peak_freq_gyro <= 6),
high_tremor_ratio, high_amplitude, moderate_tremor_ratio and
moderate_amplitude as on lines 279-284, the status is SIGNIFICANT ACTION
TREMOR when correct_frequency and (high_tremor_ratio or high_amplitude),
else MILD ACTION TREMOR when correct_frequency and (moderate_tremor_ratio
or moderate_amplitude), else NO SIGNIFICANT TREMOR. -/
def actionStatus (ra rg rmsa rmsg pfa pfg : α) : ActionStatus :=
  if ((4 ≤ pfa ∧ pfa ≤ 6) ∨ (4 ≤ pfg ∧ pfg ≤ 6)) ∧
      ((ra > RATIO_SIGNIFICANT ∨ rg > RATIO_SIGNIFICANT) ∨
        (rmsa > RMS_ACCEL_SIGNIFICANT ∨ rmsg > RMS_GYRO_SIGNIFICANT)) then
    ActionStatus.significant
  else if ((4 ≤ pfa ∧ pfa ≤ 6) ∨ (4 ≤ pfg ∧ pfg ≤ 6)) ∧
      ((ra > RATIO_MILD ∨ rg > RATIO_MILD) ∨
        (rmsa > RMS_ACCEL_MILD ∨ rmsg > RMS_GYRO_MILD)) then
    ActionStatus.mild
  else
    ActionStatus.noSignificant

/-- Severity tier of a resting-tremor status: DETECTED above POSSIBLE
above NONE. -/
def restingTier : RestingStatus → ℕ
  | RestingStatus.detected => 2
  | RestingStatus.possible => 1
  | RestingStatus.noTremor => 0

/-- Severity tier of an action-tremor status: SIGNIFICANT above MILD
above NONE. -/
def actionTier : ActionStatus → ℕ
  | ActionStatus.significant => 2
  | ActionStatus.mild => 1
  | ActionStatus.noSignificant => 0

/-! ## Spectral scalar computations.

A spectrum is a pair of parallel lists (frequency bins, power values); the
numpy boolean-mask reductions of the source become filter/map/sum over the
zipped lists. -/

/-- Tremor-band power, np.sum of the psd entries whose frequency satisfies
freqs >= 4 and freqs <= 6 (mpu6050_tremor_detection.py lines 149-150,
spiral.py lines 209-210). -/
def tremorBandPower (freqs power : List α) : α :=
  (((freqs.zip power).filter (fun fp => decide (4 ≤ fp.1 ∧ fp.1 ≤ 6))).map Prod.snd).sum

/-- Total power, np.sum of the psd entries whose frequency satisfies
freqs <= 15 (mpu6050_tremor_detection.py line 151, spiral.py line 211). -/
def totalBandPower (freqs power : List α) : α :=
  (((freqs.zip power).filter (fun fp => decide (fp.1 ≤ 15))).map Prod.snd).sum

/-- Tremor power ratio: tremor_power / total_power if total_power > 0 else 0
(mpu6050_tremor_detection.py line 152, spiral.py line 212). -/
def tremorRatioOf (freqs power : List α) : α :=
  if 0 < totalBandPower freqs power then
    tremorBandPower freqs power / totalBandPower freqs power
  else 0

/-- Band power as the spec defines it in section 4.3: the sum of power
values whose frequency falls in the closed interval from lo to hi. -/
def band_power (lo hi : α) (freqs power : List α) : α :=
  (((freqs.zip power).filter (fun fp => decide (lo ≤ fp.1 ∧ fp.1 ≤ hi))).map Prod.snd).sum

/-- First-occurrence maximum over the power (second) component of a list of
(frequency, power) pairs, mirroring np.argmax: a later element replaces the
current best only when strictly greater, so ties keep the earliest. -/
def peakPair : List (α × α) → Option (α × α)
  | [] => none
  | p :: ps =>
    match peakPair ps with
    | none => some p
    | some q => if q.2 > p.2 then some q else some p

/-- Peak frequency: np.argmax over psd restricted to freqs <= 10, then the
frequency of that bin (mpu6050_tremor_detection.py lines 161-165, spiral.py
lines 221-225).  none models the ValueError np.argmax raises on an empty
selection. -/
def peakFrequencyOf (freqs power : List α) : Option α :=
  (peakPair ((freqs.zip power).filter (fun fp => decide (fp.1 ≤ 10)))).map Prod.fst

/-! ## Decoding theorems -/

/-- Helper: the decoding arithmetic produces exactly the two's-complement
interpretation of the 16-bit word formed from two in-range bytes. -/
theorem word2c_eq_twosComplement16 (high low : ℕ) (hh : high ≤ 255) (hl : low ≤ 255) :
    word2c high low = twosComplement16 (high * 256 + low) := by
  unfold word2c twosComplement16
  split_ifs with h1 h2 <;> push_cast at * <;> omega

/-- C10: for register bytes high and low in [0, 255], the raw-word decoder
returns the two's-complement interpretation of the 16-bit word
(high << 8) + low, hence a value in the signed 16-bit range
[-32768, 32767]; both variants decode through the same arithmetic. -/
theorem C10_decoder_range (high low : ℕ) (hh : high ≤ 255) (hl : low ≤ 255) :
    -32768 ≤ word2c high low ∧ word2c high low ≤ 32767 ∧
      word2c high low = twosComplement16 (high * 256 + low) ∧
      read_word_2c (fun _ => some (high, low)) = some (word2c high low) ∧
      read_word_2c_safe (fun _ => some (high, low)) 3 = some (word2c high low) := by
  have h := word2c_eq_twosComplement16 high low hh hl
  refine ⟨?_, ?_, h, rfl, rfl⟩ <;>
    rw [h] <;> unfold twosComplement16 <;> split_ifs <;> omega

/-- Witness for C10 at the most negative word 0x8000. -/
theorem C10_decoder_range_witness :
    (128 ≤ 255 ∧ 0 ≤ 255) ∧
      (-32768 ≤ word2c 128 0 ∧ word2c 128 0 ≤ 32767 ∧
        word2c 128 0 = twosComplement16 (128 * 256 + 0) ∧
        read_word_2c (fun _ => some (128, 0)) = some (word2c 128 0) ∧
        read_word_2c_safe (fun _ => some (128, 0)) 3 = some (word2c 128 0)) :=
  ⟨by decide, C10_decoder_range 128 0 (by decide) (by decide)⟩

/-- C5: for every register byte pair, both variants' converted
accelerometer value equals (r / 16384) * 9.81 and the converted gyroscope
value equals r / 131.0, where r is the two's-complement reading of the
16-bit word; both variants share the same decoder, as witnessed in C10. -/
theorem C5_unit_conversion (high low : ℕ) (hh : high ≤ 255) (hl : low ≤ 255) :
    accelConvert (word2c high low) =
        ((twosComplement16 (high * 256 + low) : ℚ) / 16384) * (981 / 100) ∧
      gyroConvert (word2c high low) = (twosComplement16 (high * 256 + low) : ℚ) / 131 := by
  rw [accelConvert, gyroConvert, word2c_eq_twosComplement16 high low hh hl]
  exact ⟨rfl, rfl⟩

/-- Witness for C5 at the word 0xFF01, reading as -255. -/
theorem C5_unit_conversion_witness :
    (255 ≤ 255 ∧ 1 ≤ 255) ∧
      (accelConvert (word2c 255 1) =
          ((twosComplement16 (255 * 256 + 1) : ℚ) / 16384) * (981 / 100) ∧
        gyroConvert (word2c 255 1) = (twosComplement16 (255 * 256 + 1) : ℚ) / 131) :=
  ⟨by decide, C5_unit_conversion 255 1 (by decide) (by decide)⟩

/-! ## Classification theorems -/

/-- C1: the resting-tremor policy gives TREMOR DETECTED exactly when
(ratio_accel > 0.3 or ratio_gyro > 0.3) and a peak frequency lies in
[4, 6]; the sub-type is ROTATIONAL exactly when ratio_gyro is strictly
greater than ratio_accel, LINEAR otherwise; a non-detected window is
POSSIBLE TREMOR exactly when the mean of the two ratios exceeds 0.15 and
NO TREMOR otherwise. -/
theorem C1_resting_policy (ra rg pfa pfg : α) :
    (restingStatus ra rg pfa pfg = RestingStatus.detected ↔
      (ra > 3 / 10 ∨ rg > 3 / 10) ∧ ((4 ≤ pfa ∧ pfa ≤ 6) ∨ (4 ≤ pfg ∧ pfg ≤ 6))) ∧
    (restingSubtype ra rg = TremorType.rotational ↔ rg > ra) ∧
    (restingSubtype ra rg = TremorType.linear ↔ ¬rg > ra) ∧
    (restingStatus ra rg pfa pfg = RestingStatus.possible ↔
      ¬((ra > 3 / 10 ∨ rg > 3 / 10) ∧ ((4 ≤ pfa ∧ pfa ≤ 6) ∨ (4 ≤ pfg ∧ pfg ≤ 6))) ∧
        (ra + rg) / 2 > 15 / 100) ∧
    (restingStatus ra rg pfa pfg = RestingStatus.noTremor ↔
      ¬((ra > 3 / 10 ∨ rg > 3 / 10) ∧ ((4 ≤ pfa ∧ pfa ≤ 6) ∨ (4 ≤ pfg ∧ pfg ≤ 6))) ∧
        ¬(ra + rg) / 2 > 15 / 100) := by
  unfold restingStatus restingSubtype
  split_ifs with h1 h2 h3 <;> simp_all

/-- C2: the action-tremor policy gives SIGNIFICANT ACTION TREMOR exactly
when correct_frequency holds together with a ratio or RMS above its
significant threshold; otherwise MILD ACTION TREMOR exactly when
correct_frequency holds together with a ratio or RMS above its mild
threshold; otherwise NO SIGNIFICANT TREMOR; and the configured default
thresholds are 0.35 / 0.50 / 18 (significant) and 0.20 / 0.35 / 10 (mild). -/
theorem C2_action_policy (ra rg rmsa rmsg pfa pfg : α) :
    (RATIO_SIGNIFICANT = (35 / 100 : α) ∧ RMS_ACCEL_SIGNIFICANT = (50 / 100 : α) ∧
      RMS_GYRO_SIGNIFICANT = (18 : α) ∧ RATIO_MILD = (20 / 100 : α) ∧
      RMS_ACCEL_MILD = (35 / 100 : α) ∧ RMS_GYRO_MILD = (10 : α)) ∧
    (actionStatus ra rg rmsa rmsg pfa pfg = ActionStatus.significant ↔
      ((4 ≤ pfa ∧ pfa ≤ 6) ∨ (4 ≤ pfg ∧ pfg ≤ 6)) ∧
        ((ra > RATIO_SIGNIFICANT ∨ rg > RATIO_SIGNIFICANT) ∨
          (rmsa > RMS_ACCEL_SIGNIFICANT ∨ rmsg > RMS_GYRO_SIGNIFICANT))) ∧
    (actionStatus ra rg rmsa rmsg pfa pfg = ActionStatus.mild ↔
      ¬(((4 ≤ pfa ∧ pfa ≤ 6) ∨ (4 ≤ pfg ∧ pfg ≤ 6)) ∧
          ((ra > RATIO_SIGNIFICANT ∨ rg > RATIO_SIGNIFICANT) ∨
            (rmsa > RMS_ACCEL_SIGNIFICANT ∨ rmsg > RMS_GYRO_SIGNIFICANT))) ∧
        ((4 ≤ pfa ∧ pfa ≤ 6) ∨ (4 ≤ pfg ∧ pfg ≤ 6)) ∧
          ((ra > RATIO_MILD ∨ rg > RATIO_MILD) ∨
            (rmsa > RMS_ACCEL_MILD ∨ rmsg > RMS_GYRO_MILD))) ∧
    (actionStatus ra rg rmsa rmsg pfa pfg = ActionStatus.noSignificant ↔
      ¬(((4 ≤ pfa ∧ pfa ≤ 6) ∨ (4 ≤ pfg ∧ pfg ≤ 6)) ∧
          ((ra > RATIO_SIGNIFICANT ∨ rg > RATIO_SIGNIFICANT) ∨
            (rmsa > RMS_ACCEL_SIGNIFICANT ∨ rmsg > RMS_GYRO_SIGNIFICANT))) ∧
        ¬(((4 ≤ pfa ∧ pfa ≤ 6) ∨ (4 ≤ pfg ∧ pfg ≤ 6)) ∧
          ((ra > RATIO_MILD ∨ rg > RATIO_MILD) ∨
            (rmsa > RMS_ACCEL_MILD ∨ rmsg > RMS_GYRO_MILD)))) := by
  refine ⟨⟨rfl, rfl, rfl, rfl, rfl, rfl⟩, ?_⟩
  unfold actionStatus
  split_ifs with h1 h2 <;> simp_all

/-- C8: joint monotonicity of both classifiers: raising any ratio or RMS
input (here all four at once, which subsumes raising one at a time) while
the peak frequencies stay fixed never lowers the severity tier, under
SIGNIFICANT/DETECTED above MILD/POSSIBLE above NONE. -/
theorem C8_classifier_monotonicity (ra ra' rg rg' rmsa rmsa' rmsg rmsg' pfa pfg : α)
    (h1 : ra ≤ ra') (h2 : rg ≤ rg') (h3 : rmsa ≤ rmsa') (h4 : rmsg ≤ rmsg') :
    restingTier (restingStatus ra rg pfa pfg) ≤ restingTier (restingStatus ra' rg' pfa pfg) ∧
      actionTier (actionStatus ra rg rmsa rmsg pfa pfg) ≤
        actionTier (actionStatus ra' rg' rmsa' rmsg' pfa pfg) := by
  constructor
  · by_cases hd : (ra > 3 / 10 ∨ rg > 3 / 10) ∧ ((4 ≤ pfa ∧ pfa ≤ 6) ∨ (4 ≤ pfg ∧ pfg ≤ 6))
    · have hd' : (ra' > 3 / 10 ∨ rg' > 3 / 10) ∧
          ((4 ≤ pfa ∧ pfa ≤ 6) ∨ (4 ≤ pfg ∧ pfg ≤ 6)) :=
        ⟨hd.1.imp (fun h => lt_of_lt_of_le h h1) (fun h => lt_of_lt_of_le h h2), hd.2⟩
      unfold restingStatus
      rw [if_pos hd, if_pos hd']
    · by_cases hm : (ra + rg) / 2 > 15 / 100
      · have hm' : (ra' + rg') / 2 > 15 / 100 := lt_of_lt_of_le hm (by linarith)
        unfold restingStatus
        by_cases hd' : (ra' > 3 / 10 ∨ rg' > 3 / 10) ∧
            ((4 ≤ pfa ∧ pfa ≤ 6) ∨ (4 ≤ pfg ∧ pfg ≤ 6))
        · rw [if_neg hd, if_pos hm, if_pos hd']
          decide
        · rw [if_neg hd, if_pos hm, if_neg hd', if_pos hm']
      · unfold restingStatus
        rw [if_neg hd, if_neg hm]
        exact Nat.zero_le _
  · by_cases hs : ((4 ≤ pfa ∧ pfa ≤ 6) ∨ (4 ≤ pfg ∧ pfg ≤ 6)) ∧
        ((ra > RATIO_SIGNIFICANT ∨ rg > RATIO_SIGNIFICANT) ∨
          (rmsa > RMS_ACCEL_SIGNIFICANT ∨ rmsg > RMS_GYRO_SIGNIFICANT))
    · have hs' : ((4 ≤ pfa ∧ pfa ≤ 6) ∨ (4 ≤ pfg ∧ pfg ≤ 6)) ∧
          ((ra' > RATIO_SIGNIFICANT ∨ rg' > RATIO_SIGNIFICANT) ∨
            (rmsa' > RMS_ACCEL_SIGNIFICANT ∨ rmsg' > RMS_GYRO_SIGNIFICANT)) :=
        ⟨hs.1, hs.2.imp
          (fun h => h.imp (fun h => lt_of_lt_of_le h h1) (fun h => lt_of_lt_of_le h h2))
          (fun h => h.imp (fun h => lt_of_lt_of_le h h3) (fun h => lt_of_lt_of_le h h4))⟩
      unfold actionStatus
      rw [if_pos hs, if_pos hs']
    · by_cases hm : ((4 ≤ pfa ∧ pfa ≤ 6) ∨ (4 ≤ pfg ∧ pfg ≤ 6)) ∧
          ((ra > RATIO_MILD ∨ rg > RATIO_MILD) ∨
            (rmsa > RMS_ACCEL_MILD ∨ rmsg > RMS_GYRO_MILD))
      · have hm' : ((4 ≤ pfa ∧ pfa ≤ 6) ∨ (4 ≤ pfg ∧ pfg ≤ 6)) ∧
            ((ra' > RATIO_MILD ∨ rg' > RATIO_MILD) ∨
              (rmsa' > RMS_ACCEL_MILD ∨ rmsg' > RMS_GYRO_MILD)) :=
          ⟨hm.1, hm.2.imp
            (fun h => h.imp (fun h => lt_of_lt_of_le h h1) (fun h => lt_of_lt_of_le h h2))
            (fun h => h.imp (fun h => lt_of_lt_of_le h h3) (fun h => lt_of_lt_of_le h h4))⟩
        unfold actionStatus
        by_cases hs' : ((4 ≤ pfa ∧ pfa ≤ 6) ∨ (4 ≤ pfg ∧ pfg ≤ 6)) ∧
            ((ra' > RATIO_SIGNIFICANT ∨ rg' > RATIO_SIGNIFICANT) ∨
              (rmsa' > RMS_ACCEL_SIGNIFICANT ∨ rmsg' > RMS_GYRO_SIGNIFICANT))
        · rw [if_neg hs, if_pos hm, if_pos hs']
          decide
        · rw [if_neg hs, if_pos hm, if_neg hs', if_pos hm']
      · unfold actionStatus
        rw [if_neg hs, if_neg hm]
        exact Nat.zero_le _

/-- Witness for C8 at a concrete rational input: raising the ratios and
RMS values from a NO-TREMOR window to a detected one. -/
theorem C8_classifier_monotonicity_witness :
    restingTier (restingStatus (0 : ℚ) 0 5 0) ≤ restingTier (restingStatus (1 : ℚ) 0 5 0) ∧
      actionTier (actionStatus (0 : ℚ) 0 0 0 5 0) ≤
        actionTier (actionStatus (1 : ℚ) 0 1 20 5 0) :=
  C8_classifier_monotonicity 0 1 0 0 0 1 0 20 5 0 (by decide) (by decide) (by decide)
    (by decide)

/-! ## Ratio theorems -/

/-- Helper: a masked power sum over a spectrum with non-negative power
values is non-negative. -/
theorem sum_filter_snd_nonneg (p : α × α → Bool) (l : List (α × α))
    (h : ∀ x ∈ l, 0 ≤ x.2) : 0 ≤ ((l.filter p).map Prod.snd).sum := by
  apply List.sum_nonneg
  intro x hx
  rcases List.mem_map.mp hx with ⟨y, hy, rfl⟩
  exact h y (List.mem_of_mem_filter hy)

/-- Helper: widening the frequency mask can only increase a masked power
sum when the power values are non-negative. -/
theorem sum_filter_snd_mono (p q : α × α → Bool) (hpq : ∀ x, p x = true → q x = true) :
    ∀ l : List (α × α), (∀ x ∈ l, 0 ≤ x.2) →
      ((l.filter p).map Prod.snd).sum ≤ ((l.filter q).map Prod.snd).sum := by
  intro l
  induction l with
  | nil => intro _; simp
  | cons a l ih =>
    intro hl
    have ha : 0 ≤ a.2 := hl a (List.mem_cons_self a l)
    have ih' := ih (fun x hx => hl x (List.mem_cons_of_mem a hx))
    by_cases hp : p a = true
    · have hq := hpq a hp
      simpa [List.filter_cons, hp, hq] using ih'
    · by_cases hq : q a = true
      · simp only [List.filter_cons, hp, hq, if_true, if_false, List.map_cons, List.sum_cons]
        calc ((l.filter p).map Prod.snd).sum ≤ ((l.filter q).map Prod.snd).sum := ih'
          _ ≤ a.2 + ((l.filter q).map Prod.snd).sum := le_add_of_nonneg_left ha
      · simpa [List.filter_cons, hp, hq] using ih'

/-- C4 counterexample: the spectrum with a single bin at 8 Hz of power 1 is
finite and non-negative, its band power over [0, 15] is 1, not 0, yet the
tremor ratio is 0 (the 4-6 Hz band is empty), so the ratio does not equal 0
exactly when the [0, 15] band power is 0. -/
theorem C4_counterexample :
    ¬(tremorRatioOf ([8] : List ℚ) ([1] : List ℚ) = 0 ↔
        band_power (0 : ℚ) 15 [8] [1] = 0) := by
  norm_num [tremorRatioOf, tremorBandPower, totalBandPower, band_power, List.zip,
    List.zipWith, List.filter, decide_eq_true_eq]

/-- C4 as amended: for a finite non-negative power spectrum the tremor
ratio lies in [0, 1], and it is 0 exactly when the band power in the 4-6 Hz
tremor band is 0 (not the [0, 15] normalization band: power outside 4-6 Hz
but inside [0, 15] yields a zero ratio with positive [0, 15] band power). -/
theorem C4_ratio_bounds (freqs power : List α) (hp : ∀ x ∈ power, 0 ≤ x) :
    0 ≤ tremorRatioOf freqs power ∧ tremorRatioOf freqs power ≤ 1 ∧
      (tremorRatioOf freqs power = 0 ↔ band_power 4 6 freqs power = 0) := by
  have hmem : ∀ x ∈ freqs.zip power, 0 ≤ x.2 :=
    fun x hx => hp x.2 (List.of_mem_zip hx).2
  have hnum : 0 ≤ tremorBandPower freqs power :=
    sum_filter_snd_nonneg _ _ hmem
  have hband : band_power 4 6 freqs power = tremorBandPower freqs power := rfl
  have hle : tremorBandPower freqs power ≤ totalBandPower freqs power := by
    apply sum_filter_snd_mono _ _ _ _ hmem
    intro x hx
    simp only [decide_eq_true_eq] at hx ⊢
    exact le_trans hx.2 (by norm_num)
  rw [hband]
  unfold tremorRatioOf
  split_ifs with h
  · refine ⟨div_nonneg hnum h.le, (div_le_one h).mpr hle, ?_⟩
    rw [div_eq_zero_iff]
    constructor
    · rintro (h0 | h0)
      · exact h0
      · exact absurd h0 (ne_of_gt h)
    · exact fun h0 => Or.inl h0
  · have hden : totalBandPower freqs power = 0 :=
      le_antisymm (not_lt.mp h) (sum_filter_snd_nonneg _ _ hmem)
    have hnum0 : tremorBandPower freqs power = 0 :=
      le_antisymm (hden ▸ hle) hnum
    simp [hnum0]

/-- Witness for C4 on the spectrum freqs = [5, 9], power = [2, 6]. -/
theorem C4_ratio_bounds_witness :
    (∀ x ∈ ([2, 6] : List ℚ), 0 ≤ x) ∧
      (0 ≤ tremorRatioOf ([5, 9] : List ℚ) ([2, 6] : List ℚ) ∧
        tremorRatioOf ([5, 9] : List ℚ) ([2, 6] : List ℚ) ≤ 1 ∧
        (tremorRatioOf ([5, 9] : List ℚ) ([2, 6] : List ℚ) = 0 ↔
          band_power 4 6 ([5, 9] : List ℚ) ([2, 6] : List ℚ) = 0)) :=
  ⟨by decide, C4_ratio_bounds [5, 9] [2, 6] (by decide)⟩

/-- C6: over any spectrum with non-negative frequencies and power values,
the tremor ratio equals band power over [4, 6] divided by band power over
[0, 15] when the latter is nonzero, and is defined as 0 when that
denominator is 0. -/
theorem C6_ratio_formula (freqs power : List α)
    (hf : ∀ f ∈ freqs, 0 ≤ f) (hp : ∀ x ∈ power, 0 ≤ x) :
    (band_power 0 15 freqs power ≠ 0 →
      tremorRatioOf freqs power =
        band_power 4 6 freqs power / band_power 0 15 freqs power) ∧
    (band_power 0 15 freqs power = 0 → tremorRatioOf freqs power = 0) := by
  have hmem : ∀ x ∈ freqs.zip power, 0 ≤ x.2 :=
    fun x hx => hp x.2 (List.of_mem_zip hx).2
  have htot : band_power 0 15 freqs power = totalBandPower freqs power := by
    unfold band_power totalBandPower
    congr 1
    congr 1
    apply List.filter_congr
    intro x hx
    have h0 : 0 ≤ x.1 := hf x.1 (List.of_mem_zip hx).1
    simp [decide_eq_decide, h0]
  have hband : band_power 4 6 freqs power = tremorBandPower freqs power := rfl
  have hnn : 0 ≤ totalBandPower freqs power := sum_filter_snd_nonneg _ _ hmem
  rw [htot, hband]
  constructor
  · intro hne
    unfold tremorRatioOf
    rw [if_pos (lt_of_le_of_ne hnn (Ne.symm hne))]
  · intro h0
    unfold tremorRatioOf
    rw [if_neg (by rw [h0]; exact lt_irrefl 0)]

/-- Witness for C6 on the spectrum freqs = [0, 5, 9], power = [1, 2, 5]. -/
theorem C6_ratio_formula_witness :
    ((∀ f ∈ ([0, 5, 9] : List ℚ), 0 ≤ f) ∧ (∀ x ∈ ([1, 2, 5] : List ℚ), 0 ≤ x)) ∧
      ((band_power 0 15 ([0, 5, 9] : List ℚ) ([1, 2, 5] : List ℚ) ≠ 0 →
        tremorRatioOf ([0, 5, 9] : List ℚ) ([1, 2, 5] : List ℚ) =
          band_power 4 6 ([0, 5, 9] : List ℚ) ([1, 2, 5] : List ℚ) /
            band_power 0 15 ([0, 5, 9] : List ℚ) ([1, 2, 5] : List ℚ)) ∧
      (band_power 0 15 ([0, 5, 9] : List ℚ) ([1, 2, 5] : List ℚ) = 0 →
        tremorRatioOf ([0, 5, 9] : List ℚ) ([1, 2, 5] : List ℚ) = 0)) :=
  ⟨⟨by decide, by decide⟩, C6_ratio_formula [0, 5, 9] [1, 2, 5] (by decide) (by decide)⟩

/-! ## Retry-policy theorems -/

/-- Helper: the retry loop returns the decode of the first successful
attempt when that attempt falls inside the fuel budget. -/
theorem retryLoop_first_success (reads : ℕ → Option (ℕ × ℕ)) (hi lo : ℕ) :
    ∀ fuel a k, k < fuel → (∀ j, j < k → reads (a + j) = none) →
      reads (a + k) = some (hi, lo) →
      retryLoop reads a fuel = some (word2c hi lo) := by
  intro fuel
  induction fuel with
  | zero => intro a k hk; omega
  | succ fuel ih =>
    intro a k hk hfail hsucc
    cases k with
    | zero =>
      simp only [Nat.add_zero] at hsucc
      simp [retryLoop, hsucc]
    | succ k =>
      have h0 : reads a = none := by simpa using hfail 0 (Nat.succ_pos k)
      simp only [retryLoop, h0]
      apply ih (a + 1) k (Nat.lt_of_succ_lt_succ hk)
      · intro j hj
        have := hfail (j + 1) (Nat.succ_lt_succ hj)
        simpa [Nat.add_assoc, Nat.add_comm 1 j] using this
      · simpa [Nat.add_assoc, Nat.add_comm 1 k] using hsucc

/-- Helper: the retry loop propagates failure exactly when every attempt in
the fuel budget fails. -/
theorem retryLoop_exhausted (reads : ℕ → Option (ℕ × ℕ)) :
    ∀ fuel a, (∀ j, j < fuel → reads (a + j) = none) → retryLoop reads a fuel = none := by
  intro fuel
  induction fuel with
  | zero => intro a _; rfl
  | succ fuel ih =>
    intro a hfail
    have h0 : reads a = none := by simpa using hfail 0 (Nat.succ_pos fuel)
    simp only [retryLoop, h0]
    apply ih (a + 1)
    intro j hj
    have := hfail (j + 1) (Nat.succ_lt_succ hj)
    simpa [Nat.add_assoc, Nat.add_comm 1 j] using this

/-- C3 counterexample: a read stream whose first attempt fails transiently
and whose second attempt succeeds.  The action-tremor reader retries and
succeeds, but the resting-tremor reader read_word_2c propagates the first
failure immediately even though a retry was available, so it is not the
case that both policy variants retry a transiently failing register read. -/
theorem C3_counterexample :
    read_word_2c (fun n => if n = 0 then none else some (0, 0)) = none ∧
      (fun n => if n = 0 then none else some (0, 0)) 1 = some (0, 0) ∧
      read_word_2c_safe (fun n => if n = 0 then none else some (0, 0)) 3 = some 0 := by
  decide

/-- C3 as amended: only the action-tremor variant retries.  Its reader
read_word_2c_safe consults up to 3 attempts (with a fixed 0.01 s backoff
between them), returns the decode of the first success, and propagates the
failure only once all 3 attempts have failed; the resting-tremor variant's
read_word_2c performs a single read wholly determined by attempt 0, whose
failure propagates immediately and aborts the run. -/
theorem C3_retry_policy (reads bad other other' : ℕ → Option (ℕ × ℕ)) (k hi lo : ℕ)
    (hk : k < 3) (hfail : ∀ j, j < k → reads j = none) (hsucc : reads k = some (hi, lo))
    (hbad : ∀ j, j < 3 → bad j = none) (hsame : other 0 = other' 0) :
    read_word_2c_safe reads 3 = some (word2c hi lo) ∧
      read_word_2c_safe bad 3 = none ∧
      (read_word_2c other = none ↔ other 0 = none) ∧
      read_word_2c other = read_word_2c other' := by
  refine ⟨?_, ?_, ?_, ?_⟩
  · apply retryLoop_first_success reads hi lo 3 0 k hk
    · simpa using hfail
    · simpa using hsucc
  · apply retryLoop_exhausted bad 3 0
    simpa using hbad
  · unfold read_word_2c
    cases other 0 <;> simp
  · unfold read_word_2c
    rw [hsame]

/-- Witness for C3 with a stream failing once then succeeding at attempt 1,
and a stream failing on all three attempts. -/
theorem C3_retry_policy_witness :
    ((1 < 3 ∧ (∀ j, j < 1 → (fun n => if n = 0 then none else some (3, 5)) j = none) ∧
        (fun n => if n = 0 then none else some (3, 5)) 1 = some (3, 5) ∧
        (∀ j, j < 3 → (fun _ : ℕ => (none : Option (ℕ × ℕ))) j = none) ∧
        (fun _ : ℕ => some (1, 2)) 0 = (fun _ : ℕ => some (1, 2)) 0)) ∧
      (read_word_2c_safe (fun n => if n = 0 then none else some (3, 5)) 3 =
          some (word2c 3 5) ∧
        read_word_2c_safe (fun _ => none) 3 = none ∧
        (read_word_2c (fun _ => some (1, 2)) = none ↔
          (fun _ : ℕ => some ((1 : ℕ), (2 : ℕ))) 0 = none) ∧
        read_word_2c (fun _ => some (1, 2)) = read_word_2c (fun _ => some (1, 2))) :=
  ⟨⟨by decide, by decide, by decide, by decide, rfl⟩,
    C3_retry_policy (fun n => if n = 0 then none else some (3, 5)) (fun _ => none)
      (fun _ => some (1, 2)) (fun _ => some (1, 2)) 1 3 5 (by decide) (by decide)
      (by decide) (by decide) rfl⟩

/-! ## Peak-frequency theorems -/

/-- Helper: peakPair of a nonempty list splits the list around the first
occurrence of the maximal power value: everything before it is strictly
smaller, everything after it is no larger. -/
theorem peakPair_split : ∀ l : List (α × α), l ≠ [] →
    ∃ l1 m l2, peakPair l = some m ∧ l = l1 ++ m :: l2 ∧
      (∀ q ∈ l1, q.2 < m.2) ∧ (∀ q ∈ l2, q.2 ≤ m.2) := by
  intro l
  induction l with
  | nil => intro h; exact absurd rfl h
  | cons p ps ih =>
    intro _
    by_cases hps : ps = []
    · subst hps
      exact ⟨[], p, [], by simp [peakPair], by simp, by simp, by simp⟩
    · obtain ⟨l1, m, l2, hpk, hsplit, hlt, hle⟩ := ih hps
      by_cases hgt : m.2 > p.2
      · refine ⟨p :: l1, m, l2, ?_, by rw [hsplit, List.cons_append], ?_, hle⟩
        · simp [peakPair, hpk, hgt]
        · intro q hq
          rcases List.mem_cons.mp hq with rfl | hq'
          · exact hgt
          · exact hlt q hq'
      · refine ⟨[], p, ps, ?_, rfl, by simp, ?_⟩
        · simp [peakPair, hpk, hgt]
        · intro q hq
          rw [hsplit] at hq
          rcases List.mem_append.mp hq with hq1 | hq2
          · exact le_trans (hlt q hq1).le (not_lt.mp hgt)
          · rcases List.mem_cons.mp hq2 with rfl | hq2'
            · exact not_lt.mp hgt
            · exact le_trans (hle q hq2') (not_lt.mp hgt)

/-- C7: whenever some bin lies at or below 10 Hz, the computed peak
frequency is the frequency of the first occurrence of the maximal power
value among the bins with frequency at most 10 Hz (standard np.argmax
semantics), and when the restricted bins are sorted by frequency that first
occurrence has the lowest frequency among all maximal bins. -/
theorem C7_peak_frequency (freqs power : List α)
    (hne : (freqs.zip power).filter (fun fp => decide (fp.1 ≤ 10)) ≠ [])
    (hsorted : ((freqs.zip power).filter (fun fp => decide (fp.1 ≤ 10))).Pairwise
      (fun a b => a.1 ≤ b.1)) :
    ∃ l1 m l2,
      peakFrequencyOf freqs power = some m.1 ∧
      (freqs.zip power).filter (fun fp => decide (fp.1 ≤ 10)) = l1 ++ m :: l2 ∧
      (∀ q ∈ l1, q.2 < m.2) ∧ (∀ q ∈ l2, q.2 ≤ m.2) ∧
      (∀ q ∈ (freqs.zip power).filter (fun fp => decide (fp.1 ≤ 10)),
        q.2 = m.2 → m.1 ≤ q.1) := by
  obtain ⟨l1, m, l2, hpk, hsplit, hlt, hle⟩ := peakPair_split _ hne
  refine ⟨l1, m, l2, ?_, hsplit, hlt, hle, ?_⟩
  · unfold peakFrequencyOf
    rw [hpk]
    rfl
  · intro q hq hq2
    rw [hsplit] at hq hsorted
    rcases List.mem_append.mp hq with h1 | h2
    · exact absurd hq2 (ne_of_lt (hlt q h1))
    · rcases List.mem_cons.mp h2 with rfl | h2'
      · exact le_refl _
      · exact ((List.pairwise_cons.mp (List.pairwise_append.mp hsorted).2.1).1 q h2')

/-- Witness for C7 on freqs = [0, 5, 8, 20], power = [1, 3, 3, 9]: the
20 Hz bin is masked out, the maximum restricted power 3 is attained first
at 5 Hz. -/
theorem C7_peak_frequency_witness :
    ((([0, 5, 8, 20] : List ℚ).zip ([1, 3, 3, 9] : List ℚ)).filter
        (fun fp => decide (fp.1 ≤ 10)) ≠ [] ∧
      ((([0, 5, 8, 20] : List ℚ).zip ([1, 3, 3, 9] : List ℚ)).filter
        (fun fp => decide (fp.1 ≤ 10))).Pairwise (fun a b => a.1 ≤ b.1)) ∧
      (∃ l1 m l2,
        peakFrequencyOf ([0, 5, 8, 20] : List ℚ) ([1, 3, 3, 9] : List ℚ) = some m.1 ∧
        (([0, 5, 8, 20] : List ℚ).zip ([1, 3, 3, 9] : List ℚ)).filter
          (fun fp => decide (fp.1 ≤ 10)) = l1 ++ m :: l2 ∧
        (∀ q ∈ l1, q.2 < m.2) ∧ (∀ q ∈ l2, q.2 ≤ m.2) ∧
        (∀ q ∈ (([0, 5, 8, 20] : List ℚ).zip ([1, 3, 3, 9] : List ℚ)).filter
            (fun fp => decide (fp.1 ≤ 10)), q.2 = m.2 → m.1 ≤ q.1)) :=
  ⟨⟨by decide, by decide⟩, C7_peak_frequency [0, 5, 8, 20] [1, 3, 3, 9] (by decide) (by decide)⟩

/-! ## The real-valued spectral pipeline.

The arrays of the program carry floating-point values; they are modelled as
real numbers.  The library calls (numpy magnitude arithmetic,
scipy.signal.sosfilt, scipy.signal.welch) are external to the repository
and are modelled from their contracts as the spec states them in
section 4.2 and section 4.3: a causal cascaded-biquad filter, and Welch's
method with 2-second segments (nperseg = 2 x sample_rate = 200), 50%
overlap, constant detrend, a window, and averaged scaled periodograms; the
transcendental Butterworth section coefficients, window samples and
scaling factor are left as parameters. -/

/-- Elementwise np.sqrt(x**2 + y**2 + z**2) over the three axis series
(mpu6050_tremor_detection.py line 130, spiral.py line 190). -/
noncomputable def magnitudeSeries (xs ys zs : List ℝ) : List ℝ :=
  List.zipWith3 (fun x y z => Real.sqrt (x ^ 2 + y ^ 2 + z ^ 2)) xs ys zs

/-- One normalized second-order filter section (a0 = 1), as produced by
scipy.signal.butter with output sos. -/
structure Biquad where
  b0 : ℝ
  b1 : ℝ
  b2 : ℝ
  a1 : ℝ
  a2 : ℝ

/-- Direct-form-II-transposed update of one section: output b0*x + s1 and
the two state registers, the per-sample recurrence of scipy.signal.sosfilt. -/
noncomputable def biquadStep (c : Biquad) (s : ℝ × ℝ) (x : ℝ) : ℝ × (ℝ × ℝ) :=
  (c.b0 * x + s.1,
    (c.b1 * x - c.a1 * (c.b0 * x + s.1) + s.2, c.b2 * x - c.a2 * (c.b0 * x + s.1)))

/-- Causal single-pass run of one section from a given state. -/
noncomputable def biquadFilterFrom (c : Biquad) : ℝ × ℝ → List ℝ → List ℝ
  | _, [] => []
  | s, x :: xs => (biquadStep c s x).1 :: biquadFilterFrom c (biquadStep c s x).2 xs

/-- scipy.signal.sosfilt with zero initial conditions: the cascade of the
second-order sections applied in order. -/
noncomputable def sosfilt (sos : List Biquad) (x : List ℝ) : List ℝ :=
  sos.foldl (fun acc c => biquadFilterFrom c (0, 0) acc) x

/-- np.mean of a list (0 on the empty list, via division by zero). -/
def listMean (l : List α) : α := l.sum / l.length

/-- Constant detrend of one Welch segment: subtract the segment mean. -/
def detrendConstant (l : List α) : List α := l.map (fun v => v - listMean l)

/-- Discrete Fourier transform coefficient k of a real series. -/
noncomputable def dft (x : List ℝ) (k : ℕ) : ℂ :=
  ((List.range x.length).map fun n =>
    ((x.getD n 0 : ℝ) : ℂ) *
      Complex.exp (-(2 * (Real.pi : ℂ) * k * n / x.length) * Complex.I)).sum

/-- Welch segmentation: segments of length nperseg starting every step
samples, as many as fit. -/
def segmentsOf (x : List α) (nperseg step : ℕ) : List (List α) :=
  (List.range (if nperseg ≤ x.length then (x.length - nperseg) / step + 1 else 0)).map
    (fun i => (x.drop (i * step)).take nperseg)

/-- scipy.signal.welch: one-sided frequency bins k * fs / nperseg for
k = 0 .. nperseg / 2, and for each bin the mean over the 50%-overlapping
segments of the scaled periodogram of the windowed, constant-detrended
segment. -/
noncomputable def welchPsd (x : List ℝ) (fs nperseg : ℕ) (w : List ℝ) (scale : ℝ) :
    List ℝ × List ℝ :=
  ((List.range (nperseg / 2 + 1)).map (fun k : ℕ => (k : ℝ) * fs / nperseg),
   (List.range (nperseg / 2 + 1)).map (fun k : ℕ =>
     listMean ((segmentsOf x nperseg (nperseg / 2)).map (fun s =>
       scale * Complex.normSq (dft (List.zipWith (fun a b => a * b) w (detrendConstant s)) k)))))

/-- RMS amplitude np.sqrt(np.mean(filtered**2)) (spiral.py lines 229-230). -/
noncomputable def rmsOf (l : List ℝ) : ℝ := Real.sqrt (listMean (l.map (fun v => v ^ 2)))

/-- np.diff: successive differences. -/
def diffList : List α → List α
  | [] => []
  | [_] => []
  | x :: y :: rest => (y - x) :: diffList (y :: rest)

/-- Movement smoothness np.mean(np.abs(np.diff(magnitude)) * SAMPLE_RATE)
with SAMPLE_RATE = 100 (spiral.py lines 237-238). -/
noncomputable def smoothnessOf (mag : List ℝ) : ℝ :=
  listMean ((diffList mag).map (fun d => |d| * 100))

/-- Peak-to-peak np.max(l) - np.min(l); none models the ValueError raised
on an empty array (spiral.py lines 233-234). -/
noncomputable def p2pOf (l : List ℝ) : Option ℝ :=
  match l.max?, l.min? with
  | some hi, some lo => some (hi - lo)
  | _, _ => none

/-- Scalars and classification produced by the resting-tremor analysis. -/
structure RestingResult where
  ratioA : ℝ
  ratioG : ℝ
  peakA : ℝ
  peakG : ℝ
  status : RestingStatus

/-- Resting-tremor analysis (mpu6050_tremor_detection.py lines 130-201):
magnitudes, high-pass (1 Hz Butterworth order 4, coefficients abstract),
Welch PSD with fs = 100 and nperseg = 200, band ratios, peak frequencies
and the classification; none models an exception escaping the pipeline. -/
noncomputable def analyzeResting (sosA sosG : List Biquad) (w : List ℝ) (scale : ℝ)
    (axs ays azs gxs gys gzs : List ℝ) : Option RestingResult :=
  let fA := sosfilt sosA (magnitudeSeries axs ays azs)
  let fG := sosfilt sosG (magnitudeSeries gxs gys gzs)
  let specA := welchPsd fA 100 200 w scale
  let specG := welchPsd fG 100 200 w scale
  match peakFrequencyOf specA.1 specA.2, peakFrequencyOf specG.1 specG.2 with
  | some pkA, some pkG =>
    some ⟨tremorRatioOf specA.1 specA.2, tremorRatioOf specG.1 specG.2, pkA, pkG,
      restingStatus (tremorRatioOf specA.1 specA.2) (tremorRatioOf specG.1 specG.2) pkA pkG⟩
  | _, _ => none

/-- Scalars and classification produced by the action-tremor analysis. -/
structure ActionResult where
  ratioA : ℝ
  ratioG : ℝ
  peakA : ℝ
  peakG : ℝ
  rmsA : ℝ
  rmsG : ℝ
  p2pA : ℝ
  p2pG : ℝ
  smoothness : ℝ
  status : ActionStatus

/-- Action-tremor analysis (spiral.py lines 190-318): as the resting one
(2 Hz cutoff, coefficients abstract) plus RMS amplitudes, peak-to-peak
variation, smoothness, and the three-tier classification. -/
noncomputable def analyzeAction (sosA sosG : List Biquad) (w : List ℝ) (scale : ℝ)
    (axs ays azs gxs gys gzs : List ℝ) : Option ActionResult :=
  let magA := magnitudeSeries axs ays azs
  let fA := sosfilt sosA magA
  let fG := sosfilt sosG (magnitudeSeries gxs gys gzs)
  let specA := welchPsd fA 100 200 w scale
  let specG := welchPsd fG 100 200 w scale
  match peakFrequencyOf specA.1 specA.2, peakFrequencyOf specG.1 specG.2,
      p2pOf fA, p2pOf fG with
  | some pkA, some pkG, some ppA, some ppG =>
    some ⟨tremorRatioOf specA.1 specA.2, tremorRatioOf specG.1 specG.2, pkA, pkG,
      rmsOf fA, rmsOf fG, ppA, ppG, smoothnessOf magA,
      actionStatus (tremorRatioOf specA.1 specA.2) (tremorRatioOf specG.1 specG.2)
        (rmsOf fA) (rmsOf fG) pkA pkG⟩
  | _, _, _, _ => none

/-! ## Helper lemmas for the pipeline theorem -/

/-- Helper: peakPair only returns elements of its input. -/
theorem peakPair_mem : ∀ l : List (α × α), ∀ q, peakPair l = some q → q ∈ l := by
  intro l
  induction l with
  | nil => intro q h; cases h
  | cons p ps ih =>
    intro q h
    cases hps : peakPair ps with
    | none =>
      simp only [peakPair, hps] at h
      cases h
      exact List.mem_cons_self _ _
    | some m =>
      simp only [peakPair, hps] at h
      by_cases hgt : m.2 > p.2
      · rw [if_pos hgt] at h
        cases h
        exact List.mem_cons_of_mem _ (ih q hps)
      · rw [if_neg hgt] at h
        cases h
        exact List.mem_cons_self _ _

/-- Helper: peakPair is defined on every nonempty list. -/
theorem peakPair_isSome (l : List (α × α)) (h : l ≠ []) : (peakPair l).isSome = true := by
  cases l with
  | nil => exact absurd rfl h
  | cons p ps =>
    cases hps : peakPair ps with
    | none => simp [peakPair, hps]
    | some m =>
      simp only [peakPair, hps]
      by_cases hgt : m.2 > p.2
      · rw [if_pos hgt]; rfl
      · rw [if_neg hgt]; rfl

/-- Helper: when no later element has strictly larger power, peakPair keeps
the head. -/
theorem peakPair_head (p : α × α) (ps : List (α × α)) (h : ∀ q ∈ ps, q.2 ≤ p.2) :
    peakPair (p :: ps) = some p := by
  cases hps : peakPair ps with
  | none => simp [peakPair, hps]
  | some m =>
    have hm : m.2 ≤ p.2 := h m (peakPair_mem ps m hps)
    simp [peakPair, hps, not_lt.mpr hm]

/-- Helper: all-zero axis windows give an all-zero magnitude series. -/
theorem magnitudeSeries_zero (n : ℕ) :
    magnitudeSeries (List.replicate n 0) (List.replicate n 0) (List.replicate n 0) =
      List.replicate n 0 := by
  induction n with
  | zero => rfl
  | succ n ih =>
    simp only [magnitudeSeries, List.replicate_succ, List.zipWith3] at ih ⊢
    rw [ih]
    norm_num

/-- Helper: one filter section maps the zero state and zero input to zero
output and zero state. -/
theorem biquadStep_zero (c : Biquad) : biquadStep c (0, 0) 0 = (0, (0, 0)) := by
  simp [biquadStep]

/-- Helper: one filter section maps an all-zero series to an all-zero
series. -/
theorem biquadFilterFrom_zero (c : Biquad) (n : ℕ) :
    biquadFilterFrom c (0, 0) (List.replicate n 0) = List.replicate n 0 := by
  induction n with
  | zero => rfl
  | succ n ih =>
    rw [List.replicate_succ, biquadFilterFrom, biquadStep_zero]
    simpa using ih

/-- Helper: the section cascade maps an all-zero series to an all-zero
series. -/
theorem sosfilt_zero (sos : List Biquad) (n : ℕ) :
    sosfilt sos (List.replicate n 0) = List.replicate n 0 := by
  induction sos with
  | nil => rfl
  | cons c cs ih =>
    show sosfilt cs (biquadFilterFrom c (0, 0) (List.replicate n 0)) = _
    rw [biquadFilterFrom_zero]
    exact ih

/-- Helper: the mean of a list of zeros is zero. -/
theorem listMean_eq_zero (l : List α) (h : ∀ v ∈ l, v = 0) : listMean l = 0 := by
  unfold listMean
  rw [List.sum_eq_zero h, zero_div]

/-- Helper: constant detrend of an all-zero segment is all-zero. -/
theorem detrendConstant_zero (l : List α) (h : ∀ v ∈ l, v = 0) :
    ∀ u ∈ detrendConstant l, u = 0 := by
  intro u hu
  rcases List.mem_map.mp hu with ⟨v, hv, rfl⟩
  rw [h v hv, listMean_eq_zero l h, sub_zero]

/-- Helper: windowing an all-zero segment gives an all-zero segment. -/
theorem zipWith_mul_zero (w : List ℝ) :
    ∀ d : List ℝ, (∀ v ∈ d, v = 0) →
      ∀ u ∈ List.zipWith (fun a b => a * b) w d, u = 0 := by
  induction w with
  | nil =>
    intro d _ u hu
    simp at hu
  | cons a w ih =>
    intro d hd u hu
    cases d with
    | nil => simp at hu
    | cons b d =>
      rw [List.zipWith_cons_cons] at hu
      rcases List.mem_cons.mp hu with rfl | hu'
      · rw [hd b (List.mem_cons_self _ _), mul_zero]
      · exact ih d (fun v hv => hd v (List.mem_cons_of_mem _ hv)) u hu'

/-- Helper: reading any position of an all-zero list with default 0 gives 0. -/
theorem getD_eq_zero : ∀ x : List ℝ, (∀ v ∈ x, v = 0) → ∀ n, x.getD n 0 = 0 := by
  intro x
  induction x with
  | nil =>
    intro _ n
    cases n <;> rfl
  | cons a x ih =>
    intro h n
    cases n with
    | zero => exact h a (List.mem_cons_self _ _)
    | succ n => exact ih (fun v hv => h v (List.mem_cons_of_mem _ hv)) n

/-- Helper: the DFT of an all-zero series vanishes at every bin. -/
theorem dft_zero (x : List ℝ) (h : ∀ v ∈ x, v = 0) (k : ℕ) : dft x k = 0 := by
  unfold dft
  apply List.sum_eq_zero
  intro t ht
  rcases List.mem_map.mp ht with ⟨n, _, rfl⟩
  rw [getD_eq_zero x h n]
  simp

/-- Helper: every sample of every Welch segment of an all-zero series is
zero. -/
theorem segmentsOf_zero (n nperseg step : ℕ) :
    ∀ s ∈ segmentsOf (List.replicate n (0 : ℝ)) nperseg step, ∀ v ∈ s, v = 0 := by
  intro s hs v hv
  simp only [segmentsOf] at hs
  rcases List.mem_map.mp hs with ⟨i, _, rfl⟩
  exact List.eq_of_mem_replicate (List.mem_of_mem_drop (List.mem_of_mem_take hv))

/-- Helper: each averaged periodogram entry of an all-zero series is zero. -/
theorem welch_entry_zero (n nperseg step : ℕ) (w : List ℝ) (scale : ℝ) (k : ℕ) :
    listMean ((segmentsOf (List.replicate n (0 : ℝ)) nperseg step).map (fun s =>
      scale * Complex.normSq (dft (List.zipWith (fun a b => a * b) w
        (detrendConstant s)) k))) = 0 := by
  apply listMean_eq_zero
  intro v hv
  rcases List.mem_map.mp hv with ⟨s, hs, rfl⟩
  have hsz : ∀ v ∈ s, v = (0 : ℝ) := segmentsOf_zero n nperseg step s hs
  have hwz := zipWith_mul_zero w (detrendConstant s) (detrendConstant_zero s hsz)
  rw [dft_zero _ hwz k]
  simp

/-- Helper: the Welch PSD of an all-zero series is the all-zero spectrum. -/
theorem welchPsd_zero_psd (n fs nperseg : ℕ) (w : List ℝ) (scale : ℝ) :
    (welchPsd (List.replicate n 0) fs nperseg w scale).2 =
      List.replicate (nperseg / 2 + 1) 0 := by
  rw [List.eq_replicate_iff]
  constructor
  · simp [welchPsd]
  · intro p hp
    simp only [welchPsd] at hp
    rcases List.mem_map.mp hp with ⟨k, _, rfl⟩
    exact welch_entry_zero n nperseg (nperseg / 2) w scale k

/-- Helper: the zipped Welch spectrum is the image of the bin indices. -/
theorem welch_zip (x : List ℝ) (fs nperseg : ℕ) (w : List ℝ) (scale : ℝ) :
    (welchPsd x fs nperseg w scale).1.zip (welchPsd x fs nperseg w scale).2 =
      (List.range (nperseg / 2 + 1)).map (fun k : ℕ =>
        ((k : ℝ) * fs / nperseg,
          listMean ((segmentsOf x nperseg (nperseg / 2)).map (fun s =>
            scale * Complex.normSq (dft (List.zipWith (fun a b => a * b) w
              (detrendConstant s)) k))))) := by
  simp only [welchPsd]
  exact List.zip_map' _ _ _

/-- Helper: a spectrum whose zipped form covers bins 0..m with bin 0 at or
below 10 Hz always has a defined peak frequency. -/
theorem peakFrequencyOf_isSome_of_zip (freqs power : List ℝ) (m : ℕ) (F : ℕ → ℝ × ℝ)
    (hzip : freqs.zip power = (List.range (m + 1)).map F) (hF : (F 0).1 ≤ 10) :
    (peakFrequencyOf freqs power).isSome = true := by
  have hne : ((List.range (m + 1)).map F).filter (fun fp => decide (fp.1 ≤ 10)) ≠ [] :=
    List.ne_nil_of_mem (List.mem_filter.mpr
      ⟨List.mem_map_of_mem _ (List.mem_range.mpr (Nat.succ_pos m)), decide_eq_true hF⟩)
  unfold peakFrequencyOf
  rw [hzip]
  cases hpk : peakPair (((List.range (m + 1)).map F).filter (fun fp => decide (fp.1 ≤ 10))) with
  | none =>
    have hsome := peakPair_isSome _ hne
    rw [hpk] at hsome
    simp at hsome
  | some q => rfl

/-- Helper: the peak frequency over any Welch spectrum of the pipeline is
defined, because the 0 Hz bin is always inside the 10 Hz restriction. -/
theorem peakFrequencyOf_welch_isSome (x : List ℝ) (w : List ℝ) (scale : ℝ) :
    (peakFrequencyOf (welchPsd x 100 200 w scale).1
        (welchPsd x 100 200 w scale).2).isSome = true := by
  apply peakFrequencyOf_isSome_of_zip _ _ (200 / 2) _ (welch_zip x 100 200 w scale)
  norm_num

/-- Helper: a spectrum covering bins 0..m with bin 0 inside the 10 Hz
restriction and all-zero power peaks at bin 0. -/
theorem peakFrequencyOf_of_zip_zero (freqs power : List ℝ) (m : ℕ) (F : ℕ → ℝ × ℝ)
    (hzip : freqs.zip power = (List.range (m + 1)).map F) (hF : (F 0).1 ≤ 10)
    (hz : ∀ k, (F k).2 = 0) :
    peakFrequencyOf freqs power = some (F 0).1 := by
  unfold peakFrequencyOf
  rw [hzip]
  have hcons : (List.range (m + 1)).map F =
      F 0 :: (List.range m).map (fun j => F (j + 1)) := by
    rw [List.range_succ_eq_map, List.map_cons, List.map_map]
    rfl
  rw [hcons, List.filter_cons_of_pos (p := fun fp : ℝ × ℝ => decide (fp.1 ≤ 10))
    (decide_eq_true hF), peakPair_head]
  · rfl
  · intro q hq
    rcases List.mem_map.mp (List.mem_of_mem_filter hq) with ⟨j, _, rfl⟩
    rw [hz (j + 1), hz 0]

/-- Helper: a masked power sum over an all-zero power list is zero, so the
ratio guard returns 0. -/
theorem tremorRatioOf_zero_power (freqs power : List ℝ) (h : ∀ p ∈ power, p = 0) :
    tremorRatioOf freqs power = 0 := by
  have ht : totalBandPower freqs power = 0 := by
    apply List.sum_eq_zero
    intro x hx
    rcases List.mem_map.mp hx with ⟨y, hy, rfl⟩
    exact h y.2 (List.of_mem_zip (List.mem_of_mem_filter hy)).2
  simp [tremorRatioOf, ht]

/-- Helper: the tremor ratio of the Welch spectrum of an all-zero series
is 0. -/
theorem tremorRatioOf_welch_zero (n : ℕ) (w : List ℝ) (scale : ℝ) :
    tremorRatioOf (welchPsd (List.replicate n 0) 100 200 w scale).1
      (welchPsd (List.replicate n 0) 100 200 w scale).2 = 0 := by
  apply tremorRatioOf_zero_power
  rw [welchPsd_zero_psd]
  intro p hp
  exact List.eq_of_mem_replicate hp

/-- Helper: the peak frequency of the Welch spectrum of an all-zero series
is the 0 Hz bin. -/
theorem peakFrequencyOf_welch_zero (n : ℕ) (w : List ℝ) (scale : ℝ) :
    peakFrequencyOf (welchPsd (List.replicate n 0) 100 200 w scale).1
      (welchPsd (List.replicate n 0) 100 200 w scale).2 = some 0 := by
  have h := peakFrequencyOf_of_zip_zero _ _ (200 / 2) _
    (welch_zip (List.replicate n 0) 100 200 w scale) (by norm_num)
    (fun k => welch_entry_zero n 200 (200 / 2) w scale k)
  rw [h]
  norm_num

/-- Helper: the lowest Welch frequency bin is 0 Hz. -/
theorem welch_freqs_head (x : List ℝ) (w : List ℝ) (scale : ℝ) :
    (welchPsd x 100 200 w scale).1.head? = some 0 := by
  simp only [welchPsd]
  rw [show (200 / 2 + 1 : ℕ) = 100 + 1 from rfl, List.range_succ_eq_map, List.map_cons,
    List.head?_cons]
  norm_num

/-- Helper: the magnitude series is as long as the shortest axis series. -/
theorem magnitudeSeries_length : ∀ xs ys zs : List ℝ,
    (magnitudeSeries xs ys zs).length = min (min xs.length ys.length) zs.length := by
  intro xs
  induction xs with
  | nil => intro ys zs; simp [magnitudeSeries, List.zipWith3]
  | cons x xs ih =>
    intro ys zs
    cases ys with
    | nil => simp [magnitudeSeries, List.zipWith3]
    | cons y ys =>
      cases zs with
      | nil => simp [magnitudeSeries, List.zipWith3]
      | cons z zs =>
        have := ih ys zs
        simp only [magnitudeSeries, List.zipWith3, List.length_cons] at this ⊢
        rw [this]
        omega

/-- Helper: one filter section preserves the series length. -/
theorem biquadFilterFrom_length (c : Biquad) : ∀ (s : ℝ × ℝ) (l : List ℝ),
    (biquadFilterFrom c s l).length = l.length := by
  intro s l
  induction l generalizing s with
  | nil => rfl
  | cons x xs ih => simp [biquadFilterFrom, ih]

/-- Helper: the section cascade preserves the series length. -/
theorem sosfilt_length (sos : List Biquad) : ∀ x : List ℝ,
    (sosfilt sos x).length = x.length := by
  induction sos with
  | nil => intro x; rfl
  | cons c cs ih =>
    intro x
    show (sosfilt cs (biquadFilterFrom c (0, 0) x)).length = _
    rw [ih, biquadFilterFrom_length]

/-- Helper: peak-to-peak is defined on every nonempty series. -/
theorem p2pOf_isSome (l : List ℝ) (h : l ≠ []) : (p2pOf l).isSome = true := by
  cases l with
  | nil => exact absurd rfl h
  | cons a as => rfl

/-- Helper: the RMS of an all-zero series is 0. -/
theorem rmsOf_zero (n : ℕ) : rmsOf (List.replicate n 0) = 0 := by
  unfold rmsOf
  rw [listMean_eq_zero _ (by
    intro v hv
    rcases List.mem_map.mp hv with ⟨u, hu, rfl⟩
    rw [List.eq_of_mem_replicate hu]
    norm_num), Real.sqrt_zero]

/-- Helper: folding max over zeros stays 0. -/
theorem foldl_max_zero : ∀ n : ℕ, List.foldl max (0 : ℝ) (List.replicate n 0) = 0 := by
  intro n
  induction n with
  | zero => rfl
  | succ n ih => rw [List.replicate_succ, List.foldl_cons, max_self]; exact ih

/-- Helper: folding min over zeros stays 0. -/
theorem foldl_min_zero : ∀ n : ℕ, List.foldl min (0 : ℝ) (List.replicate n 0) = 0 := by
  intro n
  induction n with
  | zero => rfl
  | succ n ih => rw [List.replicate_succ, List.foldl_cons, min_self]; exact ih

/-- Helper: peak-to-peak of a nonempty all-zero series is 0. -/
theorem p2pOf_zero (n : ℕ) : p2pOf (List.replicate (n + 1) 0) = some 0 := by
  rw [List.replicate_succ]
  show p2pOf (0 :: List.replicate n 0) = some 0
  simp only [p2pOf, List.max?, List.min?, foldl_max_zero, foldl_min_zero]
  norm_num

/-- Helper: successive differences of a constant series are all 0. -/
theorem diffList_const (c : ℝ) : ∀ l : List ℝ, (∀ v ∈ l, v = c) →
    ∀ u ∈ diffList l, u = 0 := by
  intro l
  induction l with
  | nil => intro _ u hu; cases hu
  | cons x xs ih =>
    intro h u hu
    cases xs with
    | nil => simp [diffList] at hu
    | cons y ys =>
      simp only [diffList] at hu
      rcases List.mem_cons.mp hu with rfl | hu'
      · rw [h y (List.mem_cons_of_mem _ (List.mem_cons_self _ _)),
          h x (List.mem_cons_self _ _), sub_self]
      · exact ih (fun v hv => h v (List.mem_cons_of_mem _ hv)) u hu'

/-- Helper: the smoothness score of an all-zero magnitude series is 0. -/
theorem smoothnessOf_zero (n : ℕ) : smoothnessOf (List.replicate n 0) = 0 := by
  unfold smoothnessOf
  apply listMean_eq_zero
  intro v hv
  rcases List.mem_map.mp hv with ⟨d, hd, rfl⟩
  rw [diffList_const 0 _ (fun v hv => List.eq_of_mem_replicate hv) d hd]
  norm_num

/-- Helper: the resting classification of an all-zero feature vector. -/
theorem restingStatus_zero : restingStatus (0 : ℝ) 0 0 0 = RestingStatus.noTremor := by
  norm_num [restingStatus]

/-- Helper: the action classification of an all-zero feature vector. -/
theorem actionStatus_zero : actionStatus (0 : ℝ) 0 0 0 0 0 = ActionStatus.noSignificant := by
  norm_num [actionStatus, RATIO_SIGNIFICANT, RATIO_MILD, RMS_ACCEL_SIGNIFICANT,
    RMS_ACCEL_MILD, RMS_GYRO_SIGNIFICANT, RMS_GYRO_MILD]

/-- Helper: the resting analysis is defined on every finite real window. -/
theorem analyzeResting_isSome (sosA sosG : List Biquad) (w : List ℝ) (scale : ℝ)
    (axs ays azs gxs gys gzs : List ℝ) :
    (analyzeResting sosA sosG w scale axs ays azs gxs gys gzs).isSome = true := by
  simp only [analyzeResting]
  obtain ⟨uA, hA⟩ := Option.isSome_iff_exists.mp (peakFrequencyOf_welch_isSome
    (sosfilt sosA (magnitudeSeries axs ays azs)) w scale)
  obtain ⟨uG, hG⟩ := Option.isSome_iff_exists.mp (peakFrequencyOf_welch_isSome
    (sosfilt sosG (magnitudeSeries gxs gys gzs)) w scale)
  rw [hA, hG]
  rfl

/-- Helper: the action analysis is defined on every full-length
(1000-sample) real window. -/
theorem analyzeAction_isSome (sosA sosG : List Biquad) (w : List ℝ) (scale : ℝ)
    (ax ay az gx gy gz : Fin 1000 → ℝ) :
    (analyzeAction sosA sosG w scale (List.ofFn ax) (List.ofFn ay) (List.ofFn az)
      (List.ofFn gx) (List.ofFn gy) (List.ofFn gz)).isSome = true := by
  simp only [analyzeAction]
  obtain ⟨uA, hA⟩ := Option.isSome_iff_exists.mp (peakFrequencyOf_welch_isSome
    (sosfilt sosA (magnitudeSeries (List.ofFn ax) (List.ofFn ay) (List.ofFn az))) w scale)
  obtain ⟨uG, hG⟩ := Option.isSome_iff_exists.mp (peakFrequencyOf_welch_isSome
    (sosfilt sosG (magnitudeSeries (List.ofFn gx) (List.ofFn gy) (List.ofFn gz))) w scale)
  have hneA : sosfilt sosA (magnitudeSeries (List.ofFn ax) (List.ofFn ay) (List.ofFn az)) ≠
      [] := by
    intro hnil
    have := sosfilt_length sosA (magnitudeSeries (List.ofFn ax) (List.ofFn ay) (List.ofFn az))
    rw [hnil, magnitudeSeries_length] at this
    simp only [List.length_nil, List.length_ofFn, min_self] at this
    exact absurd this (by norm_num)
  have hneG : sosfilt sosG (magnitudeSeries (List.ofFn gx) (List.ofFn gy) (List.ofFn gz)) ≠
      [] := by
    intro hnil
    have := sosfilt_length sosG (magnitudeSeries (List.ofFn gx) (List.ofFn gy) (List.ofFn gz))
    rw [hnil, magnitudeSeries_length] at this
    simp only [List.length_nil, List.length_ofFn, min_self] at this
    exact absurd this (by norm_num)
  obtain ⟨vA, hpA⟩ := Option.isSome_iff_exists.mp (p2pOf_isSome _ hneA)
  obtain ⟨vG, hpG⟩ := Option.isSome_iff_exists.mp (p2pOf_isSome _ hneG)
  rw [hA, hG, hpA, hpG]
  rfl

/-- Helper: the resting analysis of the all-zero 4-second window. -/
theorem analyzeResting_zero (sosA sosG : List Biquad) (w : List ℝ) (scale : ℝ) :
    analyzeResting sosA sosG w scale (List.replicate 400 0) (List.replicate 400 0)
        (List.replicate 400 0) (List.replicate 400 0) (List.replicate 400 0)
        (List.replicate 400 0) =
      some ⟨0, 0, 0, 0, RestingStatus.noTremor⟩ := by
  simp only [analyzeResting]
  rw [magnitudeSeries_zero, sosfilt_zero sosA, sosfilt_zero sosG,
    peakFrequencyOf_welch_zero, tremorRatioOf_welch_zero]
  dsimp only
  rw [restingStatus_zero]

/-- Helper: the action analysis of the all-zero 10-second window. -/
theorem analyzeAction_zero (sosA sosG : List Biquad) (w : List ℝ) (scale : ℝ) :
    analyzeAction sosA sosG w scale (List.replicate 1000 0) (List.replicate 1000 0)
        (List.replicate 1000 0) (List.replicate 1000 0) (List.replicate 1000 0)
        (List.replicate 1000 0) =
      some ⟨0, 0, 0, 0, 0, 0, 0, 0, 0, ActionStatus.noSignificant⟩ := by
  simp only [analyzeAction]
  rw [magnitudeSeries_zero, sosfilt_zero sosA, sosfilt_zero sosG,
    peakFrequencyOf_welch_zero, tremorRatioOf_welch_zero,
    show p2pOf (List.replicate 1000 (0 : ℝ)) = some 0 from p2pOf_zero 999,
    rmsOf_zero, smoothnessOf_zero]
  dsimp only
  rw [actionStatus_zero]

/-- C9: neither spectral computation nor classification can fail on a
finite real window: the resting analysis is defined on every window and the
action analysis on every full-length window; and on the all-zero window the
PSD is identically zero, the tremor ratio is 0, the peak frequency is the
lowest (0 Hz) frequency bin, and both analyses complete, classifying
NO TREMOR and NO SIGNIFICANT TREMOR with all scalar metrics 0. -/
theorem C9_pipeline_never_raises (sosA sosG : List Biquad) (w : List ℝ) (scale : ℝ) :
    (∀ axs ays azs gxs gys gzs : List ℝ,
      (analyzeResting sosA sosG w scale axs ays azs gxs gys gzs).isSome = true) ∧
    (∀ ax ay az gx gy gz : Fin 1000 → ℝ,
      (analyzeAction sosA sosG w scale (List.ofFn ax) (List.ofFn ay) (List.ofFn az)
        (List.ofFn gx) (List.ofFn gy) (List.ofFn gz)).isSome = true) ∧
    (welchPsd (sosfilt sosA (magnitudeSeries (List.replicate 400 0) (List.replicate 400 0)
        (List.replicate 400 0))) 100 200 w scale).2 = List.replicate 101 0 ∧
    (welchPsd (sosfilt sosA (magnitudeSeries (List.replicate 400 0) (List.replicate 400 0)
        (List.replicate 400 0))) 100 200 w scale).1.head? = some 0 ∧
    analyzeResting sosA sosG w scale (List.replicate 400 0) (List.replicate 400 0)
        (List.replicate 400 0) (List.replicate 400 0) (List.replicate 400 0)
        (List.replicate 400 0) = some ⟨0, 0, 0, 0, RestingStatus.noTremor⟩ ∧
    analyzeAction sosA sosG w scale (List.replicate 1000 0) (List.replicate 1000 0)
        (List.replicate 1000 0) (List.replicate 1000 0) (List.replicate 1000 0)
        (List.replicate 1000 0) =
      some ⟨0, 0, 0, 0, 0, 0, 0, 0, 0, ActionStatus.noSignificant⟩ := by
  refine ⟨fun axs ays azs gxs gys gzs =>
      analyzeResting_isSome sosA sosG w scale axs ays azs gxs gys gzs,
    fun ax ay az gx gy gz => analyzeAction_isSome sosA sosG w scale ax ay az gx gy gz,
    ?_, ?_, analyzeResting_zero sosA sosG w scale, analyzeAction_zero sosA sosG w scale⟩
  · rw [magnitudeSeries_zero, sosfilt_zero sosA]
    exact welchPsd_zero_psd 400 100 200 w scale
  · exact welch_freqs_head _ w scale

end Tremor
